import Mathlib

/-
Shallow embedding of the Kimi reasoning parsers of this repository:
  vllm/reasoning/kimi_reasoning_parser.py   (KimiReasoningParser)
  vllm/reasoning/kimi2_reasoning_parser.py  (Kimi2ReasoningParser)
  vllm/reasoning/kimi3_reasoning_parser.py  (Kimi3ReasoningParser)

Python strings are modelled as `List Char` (sequences of Unicode code
points).  Python `str.find` is modelled by `findSub` (returning `Option Nat`
instead of the sentinel -1), slicing by `List.take`/`List.drop`, and the
truthiness idiom `s or None` on strings by `orNone`.
-/

/-- Python `s or None` for a string `s`: the empty string is falsy. -/
def orNone (s : List Char) : Option (List Char) :=
  if s = [] then none else some s

/-- Python `s.find(pat)`: index of the first occurrence of `pat` as a
contiguous substring of `s`, `none` standing for the sentinel -1. -/
def findSub (pat : List Char) : List Char → Option Nat
  | [] => if pat.isPrefixOf ([] : List Char) then some 0 else none
  | c :: t =>
    if pat.isPrefixOf (c :: t) then some 0
    else (findSub pat t).map (fun n => n + 1)

/-- The pattern `pat` occurs in `s` starting at index `i`. -/
def occursAt (pat s : List Char) (i : Nat) : Prop :=
  pat.isPrefixOf (s.drop i) = true

instance (pat s : List Char) (i : Nat) : Decidable (occursAt pat s i) := by
  unfold occursAt; infer_instance

/-- The pattern `pat` occurs in `s` at index `i` and at no earlier index. -/
def firstOccAt (pat s : List Char) (i : Nat) : Prop :=
  occursAt pat s i ∧ ∀ k, k < i → ¬ occursAt pat s k

instance (pat s : List Char) (i : Nat) : Decidable (firstOccAt pat s i) := by
  unfold firstOccAt; infer_instance

theorem isPrefixOf_nil_eq_false {pat : List Char} (h : pat ≠ []) :
    pat.isPrefixOf ([] : List Char) = false := by
  cases pat with
  | nil => exact absurd rfl h
  | cons a as => rfl

theorem findSub_eq_some {pat : List Char} :
    ∀ {s : List Char} {i : Nat}, findSub pat s = some i →
      occursAt pat s i ∧ ∀ k, k < i → ¬ occursAt pat s k := by
  intro s
  induction s with
  | nil =>
    intro i h
    unfold findSub at h
    by_cases hp : pat.isPrefixOf ([] : List Char)
    · rw [if_pos hp] at h
      cases h
      exact ⟨hp, by omega⟩
    · rw [if_neg hp] at h
      cases h
  | cons c t ih =>
    intro i h
    unfold findSub at h
    by_cases hp : pat.isPrefixOf (c :: t)
    · rw [if_pos hp] at h
      cases h
      exact ⟨hp, by omega⟩
    · rw [if_neg hp] at h
      rcases Option.map_eq_some'.mp h with ⟨i', hi', rfl⟩
      rcases ih hi' with ⟨hocc, hmin⟩
      refine ⟨?_, ?_⟩
      · unfold occursAt at hocc ⊢
        simpa [List.drop_succ_cons] using hocc
      · intro k hk
        cases k with
        | zero =>
          unfold occursAt
          simpa using hp
        | succ k' =>
          have : k' < i' := by omega
          have := hmin k' this
          unfold occursAt at this ⊢
          simpa [List.drop_succ_cons] using this

theorem findSub_eq_none {pat : List Char} (hne : pat ≠ []) :
    ∀ {s : List Char}, findSub pat s = none →
      ∀ k, ¬ occursAt pat s k := by
  intro s
  induction s with
  | nil =>
    intro _ k
    unfold occursAt
    simp [List.drop_nil, isPrefixOf_nil_eq_false hne]
  | cons c t ih =>
    intro h k
    unfold findSub at h
    by_cases hp : pat.isPrefixOf (c :: t)
    · rw [if_pos hp] at h
      cases h
    · rw [if_neg hp] at h
      have ht : findSub pat t = none := by
        cases hfs : findSub pat t with
        | none => rfl
        | some j => rw [hfs] at h; cases h
      cases k with
      | zero =>
        unfold occursAt
        simpa using hp
      | succ k' =>
        have := ih ht k'
        unfold occursAt at this ⊢
        simpa [List.drop_succ_cons] using this

/-- `findSub` computes exactly the first-occurrence index. -/
theorem findSub_of_firstOccAt {pat : List Char} (hne : pat ≠ [])
    {s : List Char} {i : Nat} (h : firstOccAt pat s i) :
    findSub pat s = some i := by
  rcases h with ⟨hocc, hmin⟩
  cases hfs : findSub pat s with
  | none => exact absurd hocc (findSub_eq_none hne hfs i)
  | some j =>
    rcases findSub_eq_some hfs with ⟨hoccj, hminj⟩
    have hij : i = j := by
      by_contra hne2
      rcases Nat.lt_or_ge i j with hlt | hge
      · exact hminj i hlt hocc
      · have : j < i := by omega
        exact hmin j this hoccj
    rw [hij]

/-- Output unit of the streaming machine (`DeltaMessage` in the source): both
fields default to None in Python; every construction site here passes both
explicitly. -/
structure DeltaMessage where
  reasoning_content : Option (List Char)
  content : Option (List Char)
deriving DecidableEq

-- Constants of kimi3_reasoning_parser.py, lines 9-19.

def STATE_INITIAL : Nat := 0

def STATE_REASONING : Nat := 1

def STATE_OUTPUT : Nat := 2

/-- `START_TEXT = '◁think▷'` (7 code points). -/
def START_TEXT : List Char := ['◁', 't', 'h', 'i', 'n', 'k', '▷']

def START_TEXT_LENGTH : Nat := START_TEXT.length

/-- `set(START_TEXT[:i] for i in range(len(START_TEXT) - 1))`: the slices of
lengths 0 through 5 (the range bound is `len - 1 = 6`, so the length-6 slice
is absent).  Membership in a Python set is membership in this list. -/
def START_PREFIXES : List (List Char) :=
  (List.range (START_TEXT.length - 1)).map (fun i => START_TEXT.take i)

/-- `END_TEXT = '◁/think▷'` (8 code points). -/
def END_TEXT : List Char := ['◁', '/', 't', 'h', 'i', 'n', 'k', '▷']

def END_TEXT_LENGTH : Nat := END_TEXT.length

/-- `[END_TEXT[:i] for i in range(1, len(END_TEXT) - 1)]`: the slices of
lengths 1 through 6, in increasing length order (the range bound is
`len - 1 = 7`, so the length-7 slice is absent). -/
def END_PREFIXES : List (List Char) :=
  (List.range' 1 (END_TEXT.length - 2)).map (fun i => END_TEXT.take i)

/-- Mutable state of a `Kimi3ReasoningParser` instance: the fields `_state`
and `_delta_accumulator` set in `__init__` (lines 26-27). -/
structure Kimi3State where
  state : Nat
  delta_accumulator : List Char
deriving DecidableEq

namespace Kimi3ReasoningParser

/-- Lines 77-95 of `extract_reasoning_content_streaming`: the code reached
once the state is REASONING or OUTPUT, with `s` the current `self._state` and
`delta` the combined text (the accumulator having been cleared already).
Returns the new instance state and the returned value. -/
def streamTail (s : Nat) (delta : List Char) : Kimi3State × Option DeltaMessage :=
  if s = STATE_REASONING then
    match findSub END_TEXT delta with
    | none =>
      match END_PREFIXES.find? (fun p => p.isSuffixOf delta) with
      | some p =>
        (⟨STATE_REASONING, p⟩,
         some ⟨some (delta.take (delta.length - p.length)), none⟩)
      | none => (⟨STATE_REASONING, []⟩, some ⟨some delta, none⟩)
    | some i =>
      (⟨STATE_OUTPUT, []⟩,
       some ⟨some (delta.take i), orNone (delta.drop (i + END_TEXT_LENGTH))⟩)
  else
    (⟨s, []⟩, some ⟨none, orNone delta⟩)

/-- `extract_reasoning_content_streaming` (lines 52-95).  The unused
arguments `previous_text`, `current_text` and the three token-id sequences
are omitted; the method reads only `delta_text` and the instance state, and
returns `Optional[DeltaMessage]`. -/
def extract_reasoning_content_streaming (st : Kimi3State) (delta_text : List Char) :
    Kimi3State × Option DeltaMessage :=
  let delta := st.delta_accumulator ++ delta_text
  if st.state = STATE_INITIAL then
    if START_TEXT.isPrefixOf delta then
      streamTail STATE_REASONING (delta.drop START_TEXT_LENGTH)
    else if delta ∈ START_PREFIXES then
      (⟨STATE_INITIAL, delta⟩, none)
    else
      streamTail STATE_OUTPUT delta
  else
    streamTail st.state delta

/-- `extract_reasoning_content` (lines 40-50); the unused `request` argument
is omitted. -/
def extract_reasoning_content (model_output : List Char) :
    Option (List Char) × Option (List Char) :=
  if START_TEXT.isPrefixOf model_output then
    let rest := model_output.drop START_TEXT_LENGTH
    match findSub END_TEXT rest with
    | none => (some rest, none)
    | some i => (orNone (rest.take i), orNone (rest.drop (i + END_TEXT_LENGTH)))
  else
    (none, some model_output)

/-- State of a fresh instance (`__init__`, lines 26-27). -/
def initialState : Kimi3State := ⟨STATE_INITIAL, []⟩

/-- Feed a list of chunks sequentially to one instance, collecting the
return value of each call. -/
def runChunks (st : Kimi3State) : List (List Char) → Kimi3State × List (Option DeltaMessage)
  | [] => (st, [])
  | c :: cs =>
    let r := extract_reasoning_content_streaming st c
    let rest := runChunks r.1 cs
    (rest.1, r.2 :: rest.2)

/-- Concatenation of the emitted `reasoning_content` fragments, absence
counting as the empty string. -/
def catReasoning (ms : List (Option DeltaMessage)) : List Char :=
  ms.foldr (fun m acc => (match m with
    | none => []
    | some d => d.reasoning_content.getD []) ++ acc) []

/-- Concatenation of the emitted `content` fragments, absence counting as
the empty string. -/
def catContent (ms : List (Option DeltaMessage)) : List Char :=
  ms.foldr (fun m acc => (match m with
    | none => []
    | some d => d.content.getD []) ++ acc) []

/-- Feed the chunks to a fresh instance and return the pair of concatenated
reasoning and content outputs. -/
def streamOutputs (chunks : List (List Char)) : List Char × List Char :=
  let ms := (runChunks initialState chunks).2
  (catReasoning ms, catContent ms)

end Kimi3ReasoningParser

namespace KimiReasoningParser

/-- Class attribute `start_token = "◁think▷"` (line 26). -/
def start_token : List Char := ['◁', 't', 'h', 'i', 'n', 'k', '▷']

/-- Class attribute `end_token = "◁/think▷"` (line 27). -/
def end_token : List Char := ['◁', '/', 't', 'h', 'i', 'n', 'k', '▷']

/-- `extract_reasoning_content` (lines 120-165); the unused `request`
argument is omitted.  `str.partition` at the first occurrence of the end
token is `take i` / `drop (i + len)` at the `findSub` index; the
`in` membership test of line 157 is `findSub = none` in the negative
branch.  Note line 165 returns `reasoning_content` verbatim (no
empty-to-None normalization); only `content` passes through `or None`. -/
def extract_reasoning_content (model_output : List Char) :
    Option (List Char) × Option (List Char) :=
  if start_token.isPrefixOf model_output then
    let rest := model_output.drop start_token.length
    match findSub end_token rest with
    | none => (some rest, none)
    | some i => (some (rest.take i), orNone (rest.drop (i + end_token.length)))
  else
    (none, some model_output)

end KimiReasoningParser

namespace Kimi2ReasoningParser

/-- Instance attribute `start_token` (line 41). -/
def start_token : List Char := ['◁', 't', 'h', 'i', 'n', 'k', '▷']

/-- Instance attribute `end_token` (line 42). -/
def end_token : List Char := ['◁', '/', 't', 'h', 'i', 'n', 'k', '▷']

/-- One attempt of the compiled pattern
`re.escape(start)(.*?)re.escape(end)(.*)` with DOTALL at the current
position (the head of `s`): the literal start token must match here, the
lazy group 1 takes the minimal text up to the next end-token occurrence
(`findSub`), and the greedy group 2 takes the whole remainder.  `none` when
the pattern does not match at this position. -/
def matchHere (s : List Char) : Option (List Char × List Char) :=
  if start_token.isPrefixOf s then
    let rest := s.drop start_token.length
    match findSub end_token rest with
    | none => none
    | some j => some (rest.take j, rest.drop (j + end_token.length))
  else
    none

/-- `self.reasoning_regex.findall(model_output)[0]` when a match exists:
Python regex matching is leftmost-first, so the engine tries the pattern at
every position in order and reports the first position where it matches. -/
def findallHead : List Char → Option (List Char × List Char)
  | [] => none
  | c :: t =>
    match matchHere (c :: t) with
    | some r => some r
    | none => findallHead t

/-- `extract_reasoning_content` (lines 62-87); the unused `request` argument
is omitted.  When `findall` produces no match the whole output is content
(line 82); otherwise group 1 is the reasoning and group 2, normalized empty
to None by lines 85-86, the content. -/
def extract_reasoning_content (model_output : List Char) :
    Option (List Char) × Option (List Char) :=
  match findallHead model_output with
  | none => (none, some model_output)
  | some (reasoning_content, response_content) =>
    if response_content = [] then (some reasoning_content, none)
    else (some reasoning_content, some response_content)

end Kimi2ReasoningParser

/-- Shared parser state as far as construction is concerned: the
`model_tokenizer` attribute.  The tokenizer is opaque to the splitting
logic, so its reference is modelled as `Option Unit` (`none` is Python
`None`; an actual tokenizer object is truthy). -/
structure ReasoningParserBase where
  model_tokenizer : Option Unit
deriving DecidableEq

/-- Modelled from the spec: the shared `ReasoningParser` base constructor
(file `vllm/reasoning/abs_reasoning_parsers.py`, not present under `src/`)
"takes a reference to a tokenizer-like object" and stores it on the
instance.  The null check that the three concrete constructors under `src/`
guard with afterwards (`if not self.model_tokenizer: raise ValueError`)
would be dead code if the base constructor itself raised on a null
reference, so the base constructor is modelled as storing the reference
without checking it. -/
def ReasoningParserInit (tokenizer : Option Unit) : ReasoningParserBase :=
  ⟨tokenizer⟩

/-- `KimiReasoningParser.__init__` (kimi_reasoning_parser.py lines 29-35):
calls the base constructor, then raises `ValueError` when the stored
tokenizer reference is falsy. -/
def KimiInit (tokenizer : Option Unit) : Except Unit ReasoningParserBase :=
  let self := ReasoningParserInit tokenizer
  if self.model_tokenizer.isNone then Except.error () else Except.ok self

/-- `Kimi2ReasoningParser.__init__` (kimi2_reasoning_parser.py lines 32-49):
the same null check as `KimiInit`; the token attributes and the compiled
regex it also sets are the constants of namespace `Kimi2ReasoningParser`. -/
def Kimi2Init (tokenizer : Option Unit) : Except Unit ReasoningParserBase :=
  let self := ReasoningParserInit tokenizer
  if self.model_tokenizer.isNone then Except.error () else Except.ok self

/-- `Kimi3ReasoningParser.__init__` (kimi3_reasoning_parser.py lines 24-27):
calls the base constructor and initializes the streaming state; it performs
no tokenizer check of its own. -/
def Kimi3Init (tokenizer : Option Unit) :
    Except Unit (ReasoningParserBase × Kimi3State) :=
  Except.ok (ReasoningParserInit tokenizer, ⟨STATE_INITIAL, []⟩)

/-- C1.  Chunk-boundary invariance fails on the code: the complete text
`"◁think▷a"` fed as the two chunks `"◁think"` and `"▷a"` to a fresh
`Kimi3ReasoningParser` yields concatenated reasoning `""` and content
`"◁think▷a"`, while fed as a single chunk it yields reasoning `"a"` and
content `""`.  (`START_PREFIXES` omits the length-6 prefix `"◁think"`, so
the first chunk is misclassified as ordinary output.) -/
theorem kimi3_chunk_split_divergence :
    Kimi3ReasoningParser.streamOutputs
        [['◁', 't', 'h', 'i', 'n', 'k'], ['▷', 'a']]
      = ([], ['◁', 't', 'h', 'i', 'n', 'k', '▷', 'a'])
    ∧ Kimi3ReasoningParser.streamOutputs
        [['◁', 't', 'h', 'i', 'n', 'k', '▷', 'a']]
      = (['a'], [])
    ∧ Kimi3ReasoningParser.streamOutputs
        [['◁', 't', 'h', 'i', 'n', 'k'], ['▷', 'a']]
      ≠ Kimi3ReasoningParser.streamOutputs
        [['◁', 't', 'h', 'i', 'n', 'k', '▷', 'a']] := by
  refine ⟨by decide, by decide, by decide⟩

/-- C2.  In REASONING state with combined text `"a◁/think"` — which contains
no end tag and whose longest suffix that is a proper non-empty prefix of the
end tag is `"◁/think"`, of length L = 7 — the code does not withhold that
suffix: `END_PREFIXES` stops at length 6, so the call returns the whole
combined text as reasoning and leaves the accumulator empty, instead of
storing `"◁/think"` and returning reasoning `"a"` as claimed for L = 7. -/
theorem kimi3_end_suffix_length7_not_withheld :
    Kimi3ReasoningParser.extract_reasoning_content_streaming
        ⟨STATE_REASONING, []⟩ ['a', '◁', '/', 't', 'h', 'i', 'n', 'k']
      = (⟨STATE_REASONING, []⟩,
         some ⟨some ['a', '◁', '/', 't', 'h', 'i', 'n', 'k'], none⟩)
    ∧ Kimi3ReasoningParser.extract_reasoning_content_streaming
        ⟨STATE_REASONING, []⟩ ['a', '◁', '/', 't', 'h', 'i', 'n', 'k']
      ≠ (⟨STATE_REASONING, ['◁', '/', 't', 'h', 'i', 'n', 'k']⟩,
         some ⟨some ['a'], none⟩) := by
  refine ⟨by decide, by decide⟩

/-- C3.  In INITIAL state with combined text `"◁think"` — a non-empty proper
prefix of the start tag of length L = 6 — the code does not buffer it:
`START_PREFIXES` stops at length 5, so the call moves to OUTPUT and returns
the text as content instead of storing it in the accumulator and returning
None as claimed for L = 6. -/
theorem kimi3_start_tag_length6_not_buffered :
    Kimi3ReasoningParser.extract_reasoning_content_streaming
        ⟨STATE_INITIAL, []⟩ ['◁', 't', 'h', 'i', 'n', 'k']
      = (⟨STATE_OUTPUT, []⟩, some ⟨none, some ['◁', 't', 'h', 'i', 'n', 'k']⟩)
    ∧ Kimi3ReasoningParser.extract_reasoning_content_streaming
        ⟨STATE_INITIAL, []⟩ ['◁', 't', 'h', 'i', 'n', 'k']
      ≠ (⟨STATE_INITIAL, ['◁', 't', 'h', 'i', 'n', 'k']⟩, none) := by
  refine ⟨by decide, by decide⟩

/-- C5 counterexample.  Constructing a `Kimi3ReasoningParser` with a null
tokenizer reference succeeds: its `__init__` performs no tokenizer check, so
construction does not fail exactly when the reference is null, contrary to
the claim. -/
theorem kimi3_init_null_tokenizer_succeeds :
    Kimi3Init none = Except.ok (⟨none⟩, ⟨STATE_INITIAL, []⟩)
    ∧ (Kimi3Init none).isOk = true := by
  exact ⟨rfl, rfl⟩

/-- C5 amended.  Construction of `KimiReasoningParser` and of
`Kimi2ReasoningParser` fails exactly when the tokenizer reference is null
and succeeds otherwise; construction of `Kimi3ReasoningParser` always
succeeds. -/
theorem init_null_tokenizer_check (tok : Option Unit) :
    (KimiInit tok = Except.error () ↔ tok = none)
    ∧ (Kimi2Init tok = Except.error () ↔ tok = none)
    ∧ (Kimi3Init tok).isOk = true := by
  cases tok with
  | none => refine ⟨by simp [KimiInit, ReasoningParserInit], by simp [Kimi2Init, ReasoningParserInit], rfl⟩
  | some u => refine ⟨by simp [KimiInit, ReasoningParserInit], by simp [Kimi2Init, ReasoningParserInit], rfl⟩

/-- C7.  The batch `extract_reasoning_content` of each of the three parsers
is a total function: every input string receives a classification (a pair of
optional strings); there is no data-level failure path in the translation.
The conjuncts after the quantifier evaluate the three parsers on inputs with
nested, duplicated and mismatched tags (the pathological examples documented
in kimi3_reasoning_parser.py lines 34-38). -/
theorem batch_extract_total :
    (∀ s : List Char,
      (∃ r c, KimiReasoningParser.extract_reasoning_content s = (r, c))
      ∧ (∃ r c, Kimi2ReasoningParser.extract_reasoning_content s = (r, c))
      ∧ (∃ r c, Kimi3ReasoningParser.extract_reasoning_content s = (r, c)))
    ∧ Kimi3ReasoningParser.extract_reasoning_content
        (['◁', 't', 'h', 'i', 'n', 'k', '▷', 'a'] ++ START_TEXT ++ ['b'] ++ END_TEXT ++ ['c'])
      = (some (['a'] ++ START_TEXT ++ ['b']), some ['c'])
    ∧ KimiReasoningParser.extract_reasoning_content (END_TEXT ++ ['a'])
      = (none, some (END_TEXT ++ ['a']))
    ∧ Kimi2ReasoningParser.extract_reasoning_content
        (START_TEXT ++ ['a'] ++ END_TEXT ++ ['b'] ++ END_TEXT ++ ['c'])
      = (some ['a'], some (['b'] ++ END_TEXT ++ ['c'])) := by
  refine ⟨fun s => ⟨⟨_, _, rfl⟩, ⟨_, _, rfl⟩, ⟨_, _, rfl⟩⟩, by decide, by decide, by decide⟩

/-- C4 counterexample.  On `"◁think▷◁/think▷b"`, `KimiReasoningParser`'s
batch extraction returns the empty reasoning string verbatim, `("", "b")`
rather than the claimed `(None, "b")`: its `str.partition`-based branch does
not normalize empty reasoning to None. -/
theorem kimi_empty_reasoning_not_normalized :
    KimiReasoningParser.extract_reasoning_content
        ['◁', 't', 'h', 'i', 'n', 'k', '▷', '◁', '/', 't', 'h', 'i', 'n', 'k', '▷', 'b']
      = (some [], some ['b'])
    ∧ KimiReasoningParser.extract_reasoning_content
        ['◁', 't', 'h', 'i', 'n', 'k', '▷', '◁', '/', 't', 'h', 'i', 'n', 'k', '▷', 'b']
      ≠ (none, some ['b']) := by
  refine ⟨by decide, by decide⟩

/-- C4 amended.  When the input starts with the start tag and the end tag
first occurs at index `i` of the remainder, both batch extractions split
there and normalize empty content to None; `Kimi3ReasoningParser` also
normalizes empty reasoning to None, while `KimiReasoningParser` returns the
reasoning text verbatim (so `"◁think▷◁/think▷b"` gives `(None, "b")` for
Kimi3 but `("", "b")` for Kimi). -/
theorem batch_prefix_policy_first_end (s : List Char) (i : Nat)
    (hstart : START_TEXT.isPrefixOf s = true)
    (hend : firstOccAt END_TEXT (s.drop START_TEXT_LENGTH) i) :
    KimiReasoningParser.extract_reasoning_content s
      = (some ((s.drop START_TEXT_LENGTH).take i),
         orNone ((s.drop START_TEXT_LENGTH).drop (i + END_TEXT_LENGTH)))
    ∧ Kimi3ReasoningParser.extract_reasoning_content s
      = (orNone ((s.drop START_TEXT_LENGTH).take i),
         orNone ((s.drop START_TEXT_LENGTH).drop (i + END_TEXT_LENGTH))) := by
  have hne : END_TEXT ≠ ([] : List Char) := by decide
  have hf : findSub END_TEXT (s.drop START_TEXT_LENGTH) = some i :=
    findSub_of_firstOccAt hne hend
  have hstart' : KimiReasoningParser.start_token.isPrefixOf s = true := hstart
  have hf' : findSub KimiReasoningParser.end_token
      (s.drop KimiReasoningParser.start_token.length) = some i := hf
  constructor
  · simp [KimiReasoningParser.extract_reasoning_content, hstart', hf']
    exact ⟨rfl, rfl⟩
  · simp [Kimi3ReasoningParser.extract_reasoning_content, hstart, hf]

/-- C4 witness: the amended theorem applied to `"◁think▷◁/think▷b"` with the
end tag at index 0 of the remainder. -/
theorem batch_prefix_policy_first_end_witness :
    KimiReasoningParser.extract_reasoning_content
        ['◁', 't', 'h', 'i', 'n', 'k', '▷', '◁', '/', 't', 'h', 'i', 'n', 'k', '▷', 'b']
      = (some ((['◁', 't', 'h', 'i', 'n', 'k', '▷', '◁', '/', 't', 'h', 'i', 'n', 'k', '▷', 'b'].drop START_TEXT_LENGTH).take 0),
         orNone ((['◁', 't', 'h', 'i', 'n', 'k', '▷', '◁', '/', 't', 'h', 'i', 'n', 'k', '▷', 'b'].drop START_TEXT_LENGTH).drop (0 + END_TEXT_LENGTH)))
    ∧ Kimi3ReasoningParser.extract_reasoning_content
        ['◁', 't', 'h', 'i', 'n', 'k', '▷', '◁', '/', 't', 'h', 'i', 'n', 'k', '▷', 'b']
      = (orNone ((['◁', 't', 'h', 'i', 'n', 'k', '▷', '◁', '/', 't', 'h', 'i', 'n', 'k', '▷', 'b'].drop START_TEXT_LENGTH).take 0),
         orNone ((['◁', 't', 'h', 'i', 'n', 'k', '▷', '◁', '/', 't', 'h', 'i', 'n', 'k', '▷', 'b'].drop START_TEXT_LENGTH).drop (0 + END_TEXT_LENGTH))) :=
  batch_prefix_policy_first_end
    ['◁', 't', 'h', 'i', 'n', 'k', '▷', '◁', '/', 't', 'h', 'i', 'n', 'k', '▷', 'b']
    0 (by decide) (by decide)

theorem mem_START_PREFIXES_length : ∀ l ∈ START_PREFIXES, l.length ≤ 5 := by decide

theorem mem_END_PREFIXES_length : ∀ l ∈ END_PREFIXES, l.length ≤ 6 := by decide

theorem streamTail_acc_le (s : Nat) (d : List Char) :
    ((Kimi3ReasoningParser.streamTail s d).1.delta_accumulator).length ≤ 6 := by
  unfold Kimi3ReasoningParser.streamTail
  by_cases hs : s = STATE_REASONING
  · rw [if_pos hs]
    cases hfs : findSub END_TEXT d with
    | some i => simp
    | none =>
      cases hfp : END_PREFIXES.find? (fun p => p.isSuffixOf d) with
      | some p =>
        simpa using mem_END_PREFIXES_length p (List.mem_of_find?_eq_some hfp)
      | none => simp
  · rw [if_neg hs]; simp

theorem streaming_acc_le (st : Kimi3State) (c : List Char) :
    ((Kimi3ReasoningParser.extract_reasoning_content_streaming st c).1.delta_accumulator).length ≤ 6 := by
  simp only [Kimi3ReasoningParser.extract_reasoning_content_streaming]
  split_ifs with h1 h2 h3
  · exact streamTail_acc_le _ _
  · simpa using le_trans (mem_START_PREFIXES_length _ h3) (by omega)
  · exact streamTail_acc_le _ _
  · exact streamTail_acc_le _ _

theorem runChunks_acc_le : ∀ (cs : List (List Char)) (st : Kimi3State),
    st.delta_accumulator.length ≤ 6 →
    (((Kimi3ReasoningParser.runChunks st cs).1).delta_accumulator).length ≤ 6 := by
  intro cs
  induction cs with
  | nil => intro st h; exact h
  | cons c cs ih =>
    intro st h
    simp only [Kimi3ReasoningParser.runChunks]
    exact ih _ (streaming_acc_le st c)

/-- C8.  Bounded withholding: after feeding any sequence of chunks to a
fresh `Kimi3ReasoningParser` the accumulator holds fewer than
`max(len(start tag), len(end tag)) - 1 = 7` characters, hence also fewer
than `max(len(start tag), len(end tag)) = 8`.  Since the chunk sequence is
arbitrary, this covers every point between calls (every prefix of a chunk
sequence is a chunk sequence).  The accumulator only ever receives values of
`START_PREFIXES` (length at most 5), values of `END_PREFIXES` (length at
most 6), or the empty string. -/
theorem kimi3_accumulator_bounded (chunks : List (List Char)) :
    (((Kimi3ReasoningParser.runChunks Kimi3ReasoningParser.initialState chunks).1).delta_accumulator).length
        < max START_TEXT.length END_TEXT.length - 1
    ∧ (((Kimi3ReasoningParser.runChunks Kimi3ReasoningParser.initialState chunks).1).delta_accumulator).length
        < max START_TEXT.length END_TEXT.length := by
  have h := runChunks_acc_le chunks Kimi3ReasoningParser.initialState (by decide)
  have hm : max START_TEXT.length END_TEXT.length = 8 := by decide
  rw [hm]
  omega

/-- C9.  In REASONING state, when the combined text contains the end tag
first at offset `i`, the streaming call moves to OUTPUT, clears the
accumulator, and returns reasoning_content = combined[:i] verbatim — as
`some`, even when it is the empty string — while the remainder after the end
tag is normalized to None when empty by `orNone`. -/
theorem kimi3_streaming_end_tag_event (st : Kimi3State) (delta_text : List Char) (i : Nat)
    (hstate : st.state = STATE_REASONING)
    (hend : firstOccAt END_TEXT (st.delta_accumulator ++ delta_text) i) :
    Kimi3ReasoningParser.extract_reasoning_content_streaming st delta_text
      = (⟨STATE_OUTPUT, []⟩,
         some ⟨some ((st.delta_accumulator ++ delta_text).take i),
               orNone ((st.delta_accumulator ++ delta_text).drop (i + END_TEXT_LENGTH))⟩) := by
  have hne : END_TEXT ≠ ([] : List Char) := by decide
  have hf := findSub_of_firstOccAt hne hend
  simp only [Kimi3ReasoningParser.extract_reasoning_content_streaming, hstate]
  rw [if_neg (by decide)]
  unfold Kimi3ReasoningParser.streamTail
  rw [if_pos rfl, hf]

/-- C9 witness: the end tag at offset 0 of the combined text yields
reasoning_content = some "" (verbatim empty string) and content = some "b". -/
theorem kimi3_streaming_end_tag_event_witness :
    Kimi3ReasoningParser.extract_reasoning_content_streaming ⟨STATE_REASONING, []⟩
        ['◁', '/', 't', 'h', 'i', 'n', 'k', '▷', 'b']
      = (⟨STATE_OUTPUT, []⟩, some ⟨some [], some ['b']⟩) :=
  kimi3_streaming_end_tag_event ⟨STATE_REASONING, []⟩
    ['◁', '/', 't', 'h', 'i', 'n', 'k', '▷', 'b'] 0 rfl (by decide)

theorem streamTail_ne_none (s : Nat) (d : List Char) :
    (Kimi3ReasoningParser.streamTail s d).2 ≠ none := by
  unfold Kimi3ReasoningParser.streamTail
  by_cases hs : s = STATE_REASONING
  · rw [if_pos hs]
    cases hfs : findSub END_TEXT d with
    | some i => simp
    | none =>
      cases hfp : END_PREFIXES.find? (fun p => p.isSuffixOf d) with
      | some p => simp
      | none => simp
  · rw [if_neg hs]; simp

theorem streamTail_state_ne (s : Nat) (d : List Char) (h : s ≠ STATE_INITIAL) :
    (Kimi3ReasoningParser.streamTail s d).1.state ≠ STATE_INITIAL := by
  unfold Kimi3ReasoningParser.streamTail
  by_cases hs : s = STATE_REASONING
  · rw [if_pos hs]
    cases hfs : findSub END_TEXT d with
    | some i => simp [STATE_OUTPUT, STATE_INITIAL]
    | none =>
      cases hfp : END_PREFIXES.find? (fun p => p.isSuffixOf d) with
      | some p => simp [STATE_REASONING, STATE_INITIAL]
      | none => simp [STATE_REASONING, STATE_INITIAL]
  · rw [if_neg hs]
    simpa using h

/-- C10.  Once the state of a `Kimi3ReasoningParser` is not INITIAL, every
streaming call returns a DeltaMessage and the state never returns to
INITIAL; conversely a call returns None only when the state is INITIAL and
the combined text is one of the buffered start-tag prefixes. -/
theorem kimi3_streaming_none_only_in_initial (st : Kimi3State) (d : List Char) :
    (st.state ≠ STATE_INITIAL →
      (Kimi3ReasoningParser.extract_reasoning_content_streaming st d).2 ≠ none
      ∧ (Kimi3ReasoningParser.extract_reasoning_content_streaming st d).1.state ≠ STATE_INITIAL)
    ∧ ((Kimi3ReasoningParser.extract_reasoning_content_streaming st d).2 = none →
      st.state = STATE_INITIAL ∧ (st.delta_accumulator ++ d) ∈ START_PREFIXES) := by
  constructor
  · intro h
    simp only [Kimi3ReasoningParser.extract_reasoning_content_streaming]
    rw [if_neg h]
    exact ⟨streamTail_ne_none _ _, streamTail_state_ne _ _ h⟩
  · intro h
    by_cases h0 : st.state = STATE_INITIAL
    · refine ⟨h0, ?_⟩
      simp only [Kimi3ReasoningParser.extract_reasoning_content_streaming] at h
      rw [if_pos h0] at h
      by_cases hp : START_TEXT.isPrefixOf (st.delta_accumulator ++ d)
      · rw [if_pos hp] at h
        exact absurd h (streamTail_ne_none _ _)
      · rw [if_neg hp] at h
        by_cases hm : (st.delta_accumulator ++ d) ∈ START_PREFIXES
        · exact hm
        · rw [if_neg hm] at h
          exact absurd h (streamTail_ne_none _ _)
    · exfalso
      simp only [Kimi3ReasoningParser.extract_reasoning_content_streaming] at h
      rw [if_neg h0] at h
      exact streamTail_ne_none _ _ h

/-- C10 witness: in OUTPUT state the call on chunk "x" emits a message and
stays out of INITIAL; in INITIAL state the chunk "◁" is buffered, the call
returning None, with the combined text among the start-tag prefixes. -/
theorem kimi3_streaming_none_only_in_initial_witness :
    ((Kimi3ReasoningParser.extract_reasoning_content_streaming ⟨STATE_OUTPUT, []⟩ ['x']).2 ≠ none
     ∧ (Kimi3ReasoningParser.extract_reasoning_content_streaming ⟨STATE_OUTPUT, []⟩ ['x']).1.state ≠ STATE_INITIAL)
    ∧ ((⟨STATE_INITIAL, []⟩ : Kimi3State).state = STATE_INITIAL
       ∧ ((⟨STATE_INITIAL, []⟩ : Kimi3State).delta_accumulator ++ ['◁']) ∈ START_PREFIXES) :=
  ⟨(kimi3_streaming_none_only_in_initial ⟨STATE_OUTPUT, []⟩ ['x']).1 (by decide),
   (kimi3_streaming_none_only_in_initial ⟨STATE_INITIAL, []⟩ ['◁']).2 (by decide)⟩

theorem occursAt_cons {pat : List Char} {c : Char} {t : List Char} {k : Nat} :
    occursAt pat (c :: t) (k + 1) ↔ occursAt pat t k := by
  unfold occursAt
  rw [List.drop_succ_cons]

namespace Kimi2ReasoningParser

/-- `findall` head, positive case: when the start token first occurs at `i`
and the end token occurs in the text after it first at the index found by
`findSub`, the leftmost regex match is at `i` with the lazy group up to that
end token and the greedy group taking the rest.  (A later start-token
occurrence cannot give the leftmost match: any end token after it is also
after the first start token.) -/
theorem findallHead_of_firstOcc :
    ∀ (s : List Char) (i : Nat), firstOccAt start_token s i →
      ∀ j, findSub end_token (s.drop (i + start_token.length)) = some j →
        findallHead s
          = some ((s.drop (i + start_token.length)).take j,
                  (s.drop (i + start_token.length)).drop (j + end_token.length)) := by
  intro s
  induction s with
  | nil =>
    intro i h j _
    exfalso
    have h1 : start_token.isPrefixOf (List.drop i ([] : List Char)) = true := h.1
    rw [List.drop_nil] at h1
    exact absurd h1 (by decide)
  | cons c t ih =>
    intro i h j hfind
    cases i with
    | zero =>
      have hp : start_token.isPrefixOf (c :: t) = true := by
        have h1 : start_token.isPrefixOf (List.drop 0 (c :: t)) = true := h.1
        rwa [List.drop_zero] at h1
      simp only [findallHead, matchHere, hp, if_pos]
      simp only [Nat.zero_add] at hfind ⊢
      rw [hfind]
    | succ k =>
      have hp : start_token.isPrefixOf (c :: t) = false := by
        have h0 := h.2 0 (Nat.succ_pos k)
        unfold occursAt at h0
        rw [List.drop_zero] at h0
        exact Bool.eq_false_iff.mpr h0
      have hstep : findallHead (c :: t) = findallHead t := by
        simp only [findallHead, matchHere, hp]
        simp
      have e : (c :: t).drop (k + 1 + start_token.length)
          = t.drop (k + start_token.length) := by
        rw [show k + 1 + start_token.length = (k + start_token.length) + 1 by omega]
        exact List.drop_succ_cons
      have hfirst : firstOccAt start_token t k := by
        constructor
        · exact occursAt_cons.mp h.1
        · intro k' hk'
          have h2 := h.2 (k' + 1) (by omega)
          intro hocc
          exact h2 (occursAt_cons.mpr hocc)
      rw [hstep, e]
      rw [e] at hfind
      exact ih k hfirst j hfind

/-- `findall` head, negative case: when no start-token occurrence has an
end-token occurrence after it, the regex does not match anywhere. -/
theorem findallHead_eq_none_of_no_pair :
    ∀ s : List Char,
      (¬ ∃ i j, occursAt start_token s i ∧ occursAt end_token s j
          ∧ i + start_token.length ≤ j) →
      findallHead s = none := by
  intro s
  induction s with
  | nil => intro _; rfl
  | cons c t ih =>
    intro hno
    have hno' : ¬ ∃ i j, occursAt start_token t i ∧ occursAt end_token t j
        ∧ i + start_token.length ≤ j := by
      rintro ⟨i, j, h1, h2, h3⟩
      exact hno ⟨i + 1, j + 1, occursAt_cons.mpr h1, occursAt_cons.mpr h2, by omega⟩
    by_cases hp : start_token.isPrefixOf (c :: t) = true
    · cases hfs : findSub end_token ((c :: t).drop start_token.length) with
      | some j =>
        exfalso
        have hocc := (findSub_eq_some hfs).1
        unfold occursAt at hocc
        rw [List.drop_drop] at hocc
        have h0 : occursAt start_token (c :: t) 0 := by
          unfold occursAt
          rw [List.drop_zero]
          exact hp
        have hocc' : occursAt end_token (c :: t) (start_token.length + j) := hocc
        exact hno ⟨0, start_token.length + j, h0, hocc', by omega⟩
      | none =>
        have hstep : findallHead (c :: t) = findallHead t := by
          simp only [findallHead, matchHere, hp, if_pos, hfs]
        rw [hstep]
        exact ih hno'
    · have hp' : start_token.isPrefixOf (c :: t) = false := by
        exact Bool.eq_false_iff.mpr hp
      have hstep : findallHead (c :: t) = findallHead t := by
        simp only [findallHead, matchHere, hp']
        simp
      rw [hstep]
      exact ih hno'

end Kimi2ReasoningParser

/-- C6.  Anywhere policy of `Kimi2ReasoningParser.extract_reasoning_content`:
when the start tag first occurs at `i` and the end tag first occurs at `j`
of the text after it, the result is the text strictly between them as
reasoning_content and the text after that end tag as content, normalized to
None when empty, discarding everything before the start tag; when no
start-tag-then-end-tag pair exists, the result is `(None, input)`. -/
theorem kimi2_anywhere_policy (s : List Char) :
    (∀ i, firstOccAt Kimi2ReasoningParser.start_token s i →
      ∀ j, firstOccAt Kimi2ReasoningParser.end_token
          (s.drop (i + Kimi2ReasoningParser.start_token.length)) j →
        Kimi2ReasoningParser.extract_reasoning_content s
          = (some ((s.drop (i + Kimi2ReasoningParser.start_token.length)).take j),
             orNone ((s.drop (i + Kimi2ReasoningParser.start_token.length)).drop
               (j + Kimi2ReasoningParser.end_token.length))))
    ∧ ((¬ ∃ i j, occursAt Kimi2ReasoningParser.start_token s i
          ∧ occursAt Kimi2ReasoningParser.end_token s j
          ∧ i + Kimi2ReasoningParser.start_token.length ≤ j) →
      Kimi2ReasoningParser.extract_reasoning_content s = (none, some s)) := by
  constructor
  · intro i hi j hj
    have hne : Kimi2ReasoningParser.end_token ≠ ([] : List Char) := by decide
    have hf := findSub_of_firstOccAt hne hj
    have hhead := Kimi2ReasoningParser.findallHead_of_firstOcc s i hi j hf
    simp only [Kimi2ReasoningParser.extract_reasoning_content, hhead]
    by_cases hc : (s.drop (i + Kimi2ReasoningParser.start_token.length)).drop
        (j + Kimi2ReasoningParser.end_token.length) = []
    · simp [hc, orNone]
    · simp [hc, orNone]
      split_ifs <;> rfl
  · intro hno
    have hhead := Kimi2ReasoningParser.findallHead_eq_none_of_no_pair s hno
    simp only [Kimi2ReasoningParser.extract_reasoning_content, hhead]

/-- C6 witness: on `"x◁think▷a◁/think▷b"` the start tag first occurs at
index 1, the end tag at index 1 of the remainder, and the extraction
discards the leading `"x"`, giving reasoning `"a"` and content `"b"`. -/
theorem kimi2_anywhere_policy_witness :
    Kimi2ReasoningParser.extract_reasoning_content
        ['x', '◁', 't', 'h', 'i', 'n', 'k', '▷', 'a', '◁', '/', 't', 'h', 'i', 'n', 'k', '▷', 'b']
      = (some ((['x', '◁', 't', 'h', 'i', 'n', 'k', '▷', 'a', '◁', '/', 't', 'h', 'i', 'n', 'k', '▷', 'b'].drop
            (1 + Kimi2ReasoningParser.start_token.length)).take 1),
         orNone ((['x', '◁', 't', 'h', 'i', 'n', 'k', '▷', 'a', '◁', '/', 't', 'h', 'i', 'n', 'k', '▷', 'b'].drop
            (1 + Kimi2ReasoningParser.start_token.length)).drop
           (1 + Kimi2ReasoningParser.end_token.length))) :=
  (kimi2_anywhere_policy
      ['x', '◁', 't', 'h', 'i', 'n', 'k', '▷', 'a', '◁', '/', 't', 'h', 'i', 'n', 'k', '▷', 'b']).1
    1 (by decide) 1 (by decide)
